import Mathlib

/-!
Shallow embedding of the task-manager application in `src/app.py`
(Flask + sqlite3): the status deriver `compute_task_status`, the listing
query of the `index` route (filter + sort + category join), and the
mutating handlers `register`, `login`, `create_task` (the POST branch of
`index`), `edit` and `delete`.

Conventions of the embedding:
* SQLite rows become Lean structures; the three relations become lists.
* `date.today()` and `CURRENT_TIMESTAMP` are ambient in the source and
  become explicit parameters (`today`, `now`).
* `werkzeug` password hashing/checking is an external collaborator and
  becomes a function parameter (`hash`, `check`).
* machine-facing strings stay `String`; SQL `NULL` becomes `Option`.
* flash messages are returned verbatim (the source flashes Russian text).
-/

namespace App

/-- ASCII lower-casing of a single character, as SQLite's default `LIKE`
applies case folding only to ASCII `A`-`Z`. -/
def lowerAscii (c : Char) : Char :=
  if 'A' ≤ c ∧ c ≤ 'Z' then Char.ofNat (c.toNat + 32) else c

/-- Byte-wise lexicographic `≤` on character lists: SQLite's BINARY
collation used by `ORDER BY` on `TEXT` columns (UTF-8 byte order equals
code-point order). -/
def charListLe : List Char → List Char → Bool
  | [], _ => true
  | _ :: _, [] => false
  | a :: as, b :: bs => decide (a < b) || (a == b && charListLe as bs)

/-- SQLite `LIKE` pattern matching: `%` matches any sequence, `_` matches
any single character, any other character matches itself up to ASCII case
folding.  Structured so that `%` tries every suffix of the remaining
subject. -/
def likeMatch : List Char → List Char → Bool
  | [], s => s.isEmpty
  | p :: ps, s =>
    if p = '%' then s.tails.any (fun t => likeMatch ps t)
    else
      match s with
      | [] => false
      | c :: s' =>
        if p = '_' then likeMatch ps s'
        else (lowerAscii p == lowerAscii c) && likeMatch ps s'

/-- Plain (case-sensitive) list prefix test, used to state what a
wildcard-free `LIKE` pattern means. -/
def isPrefixB : List Char → List Char → Bool
  | [], _ => true
  | _ :: _, [] => false
  | a :: q, b :: s => a == b && isPrefixB q s

/-- Plain contiguous-sublist test built on `isPrefixB`. -/
def isInfixB : List Char → List Char → Bool
  | q, [] => isPrefixB q []
  | q, b :: s => isPrefixB q (b :: s) || isInfixB q s

/-- Case-sensitive substring containment between strings (the literal
reading of "title contains q as a substring"). -/
def containsSubstr (s q : String) : Bool :=
  isInfixB q.toList s.toList

/-- ASCII-case-insensitive substring containment between strings: the
meaning of `title LIKE '%q%'` for a wildcard-free `q`. -/
def containsCI (s q : String) : Bool :=
  isInfixB (q.toList.map lowerAscii) (s.toList.map lowerAscii)

/-- Python `str.strip()` as used on form fields and query parameters:
drops leading and trailing whitespace. -/
def stripWS (c : Char) : Bool :=
  c == ' ' || c == '\t' || c == '\n' || c == '\r' || c == '\x0b' || c == '\x0c'

/-- Python `str.strip()` on a string (whitespace at both ends removed). -/
def stripStr (s : String) : String :=
  ⟨((s.data.dropWhile stripWS).reverse.dropWhile stripWS).reverse⟩

/-- Python `request.form.get(...) or None`: the empty string becomes
SQL `NULL`. -/
def orNone (s : String) : Option String :=
  if s = "" then none else some s

/-- Numeric reading of a string, modelling SQLite's conversion of a
numeric-looking text parameter when compared against an INTEGER-affinity
column; a non-numeric text never equals an integer. -/
def strToNatOpt (s : String) : Option Nat :=
  match s.data with
  | [] => none
  | l => if l.all Char.isDigit then some (l.foldl (fun n c => 10 * n + (c.toNat - 48)) 0) else none

/-- Proleptic-Gregorian calendar date as `datetime.date` holds it. -/
structure PDate where
  year : Nat
  month : Nat
  day : Nat
deriving DecidableEq

/-- Python `date` comparison `dl_date < today` (year, month, day
lexicographically). -/
def dateLtB (a b : PDate) : Bool :=
  decide (a.year < b.year) ||
    (a.year == b.year &&
      (decide (a.month < b.month) ||
        (a.month == b.month && decide (a.day < b.day))))

/-- Non-strict date comparison. -/
def dateLeB (a b : PDate) : Bool :=
  dateLtB a b || a == b

/-- Gregorian leap-year rule used by `datetime`. -/
def isLeap (y : Nat) : Bool :=
  (y % 4 == 0 && y % 100 != 0) || y % 400 == 0

/-- Number of days of a month, as `datetime` validates day-of-month. -/
def daysInMonth (y m : Nat) : Nat :=
  if m = 2 then (if isLeap y then 29 else 28)
  else if m = 4 ∨ m = 6 ∨ m = 9 ∨ m = 11 then 30
  else 31

/-- Bounds under which a `PDate` is a value `datetime.date` accepts. -/
def validDateB (d : PDate) : Bool :=
  decide (1 ≤ d.year) && decide (d.year ≤ 9999) &&
    decide (1 ≤ d.month) && decide (d.month ≤ 12) &&
    decide (1 ≤ d.day) && decide (d.day ≤ daysInMonth d.year d.month)

/-- Splitting a character list on `'-'`, the way `"%Y-%m-%d"` separates
its three fields (same grouping as Python `str.split('-')`). -/
def splitDash : List Char → List (List Char)
  | [] => [[]]
  | '-' :: rest => [] :: splitDash rest
  | c :: rest =>
    match splitDash rest with
    | [] => [[c]]
    | g :: gs => (c :: g) :: gs

/-- Digits-to-number reading of a digit list (most significant first). -/
def digitsToNat (l : List Char) : Nat :=
  l.foldl (fun n c => 10 * n + (c.toNat - 48)) 0

/-- CPython `datetime.strptime(s, "%Y-%m-%d").date()` as a total
function: exactly four digits of year (and `year ≥ 1`, per
`datetime.MINYEAR`), one or two digits of month in `1..12`, one or two
digits of a day valid for that month, joined by literal hyphens with no
surrounding garbage; `none` wherever CPython raises `ValueError`. -/
def parseDate (s : String) : Option PDate :=
  match splitDash s.data with
  | [ys, ms, ds] =>
    if ys.length = 4 ∧ ys.all Char.isDigit ∧
        (ms.length = 1 ∨ ms.length = 2) ∧ ms.all Char.isDigit ∧
        (ds.length = 1 ∨ ds.length = 2) ∧ ds.all Char.isDigit then
      let y := digitsToNat ys
      let m := digitsToNat ms
      let d := digitsToNat ds
      if 1 ≤ y ∧ 1 ≤ m ∧ m ≤ 12 ∧ 1 ≤ d ∧ d ≤ daysInMonth y m then
        some ⟨y, m, d⟩
      else none
    else none
  | _ => none

/-- Single decimal digit as a character. -/
def digitChar (n : Nat) : Char := Char.ofNat (48 + n)

/-- Zero-padded fixed-width decimal rendering (`k` digits, most
significant first). -/
def padDigits : Nat → Nat → List Char
  | 0, _ => []
  | k + 1, n => digitChar (n / 10 ^ k) :: padDigits k (n % 10 ^ k)

/-- Canonical `YYYY-MM-DD` rendering of a date — the format the HTML
date input submits and the schema comment documents
(`deadline TEXT -- stored as YYYY-MM-DD or NULL`). -/
def formatDate (d : PDate) : String :=
  ⟨padDigits 4 d.year ++ '-' :: (padDigits 2 d.month ++ '-' :: padDigits 2 d.day)⟩

/-- Search text free of the `LIKE` wildcard characters `%` and `_`. -/
def noWild (q : String) : Bool :=
  q.toList.all (fun c => !(c == '%') && !(c == '_'))

/-- Row of the `users` relation. -/
structure User where
  id : Nat
  username : String
  password_hash : String
deriving DecidableEq

/-- Row of the `categories` relation. -/
structure Category where
  id : Nat
  user_id : Nat
  name : String
deriving DecidableEq

/-- Row of the `tasks` relation.  `completed` is the 0/1 flag as a
`Bool`; `created_at` is the `CURRENT_TIMESTAMP` text. -/
structure Task where
  id : Nat
  user_id : Nat
  title : String
  description : String
  category_id : Option Nat
  deadline : Option String
  completed : Bool
  created_at : String
deriving DecidableEq

/-- Row handed to the template by `index`: the task columns joined with
`c.name AS category_name` and annotated with the derived status. -/
structure TaskView extends Task where
  category_name : Option String
  status : String
  overdue : Bool
deriving DecidableEq

/-- Function `compute_task_status` of `src/app.py` (lines 149-164).
`today` stands for `date.today()`.  The function is total: the bare
`except` around `strptime` is the `none` branch of `parseDate`, and a
falsy (`None` or empty) deadline falls to the last branch. -/
def compute_task_status (completed : Bool) (deadline : Option String) (today : PDate) :
    String × Bool :=
  if completed then ("Готово", false)
  else
    match deadline with
    | some dl =>
      if dl ≠ "" then
        match parseDate dl with
        | some dl_date =>
          if dateLtB dl_date today then ("Просрочено", true) else ("В процессе", false)
        | none => ("В процессе", false)
      else ("В процессе", false)
    | none => ("В процессе", false)

/-- Abstract status labels of the specification's Status Deriver
(§4.2); this application renders them in Russian. -/
inductive SpecLabel
  | isDone
  | isOverdue
  | inProgress
deriving DecidableEq

/-- Rendering of the specification's labels as this application's
user-facing strings: Done = "Готово", Overdue = "Просрочено",
In progress = "В процессе". -/
def labelText : SpecLabel → String
  | .isDone => "Готово"
  | .isOverdue => "Просрочено"
  | .inProgress => "В процессе"

/-- Status Deriver written from the specification's words (§4.2): if
completed, Done; else if the deadline is present, parses as a valid date
and is strictly before today, Overdue; else In progress. -/
def spec_status (completed : Bool) (deadline : Option String) (today : PDate) :
    SpecLabel × Bool :=
  if completed then (.isDone, false)
  else
    match deadline with
    | some dl =>
      match parseDate dl with
      | some d => if dateLtB d today then (.isOverdue, true) else (.inProgress, false)
      | none => (.inProgress, false)
    | none => (.inProgress, false)

/-- Comparison `t.category_id = ?` of the category filter: the text
parameter against the INTEGER-affinity column (SQLite converts a
numeric-looking parameter; `NULL` never matches). -/
def catFilterMatch (cid : Option Nat) (cat : String) : Bool :=
  match cid, strToNatOpt cat with
  | some n, some m => n == m
  | _, _ => false

/-- WHERE clause of the listing query in `index` (lines 193-200):
always `t.user_id = ?`; `AND t.title LIKE '%q%'` when the stripped
search text is non-empty; `AND t.category_id = ?` when the category
parameter is present and differs from `"all"`. -/
def matchesQuery (uid : Nat) (q : String) (cat : Option String) (t : Task) : Bool :=
  (t.user_id == uid) &&
    (q == "" || likeMatch ('%' :: (q.toList ++ ['%'])) t.title.toList) &&
    (match cat with
     | none => true
     | some c => if c ≠ "" ∧ c ≠ "all" then catFilterMatch t.category_id c else true)

/-- First sort key `CASE WHEN t.deadline IS NULL THEN 1 ELSE 0 END`. -/
def nullKey (t : Task) : Nat :=
  match t.deadline with
  | none => 1
  | some _ => 0

/-- Characters of the deadline text (`NULL` sorts within its own
key-1 group, so the empty stand-in is never compared across groups). -/
def dlChars (t : Task) : List Char :=
  match t.deadline with
  | none => []
  | some s => s.toList

/-- ORDER BY `CASE WHEN t.deadline IS NULL THEN 1 ELSE 0 END, t.deadline
ASC` (line 207): null-deadline rows after the rest, then text order. -/
def deadlineLe (a b : Task) : Bool :=
  decide (nullKey a < nullKey b) ||
    (nullKey a == nullKey b && charListLe (dlChars a) (dlChars b))

/-- ORDER BY `t.created_at DESC` (line 204). -/
def createdLe (a b : Task) : Bool :=
  charListLe b.created_at.toList a.created_at.toList

/-- Sort-key dispatch of `index`: `"created"` sorts by creation time
descending, anything else (the default `"deadline"`) by the deadline
order. -/
def taskLe (sort : String) (a b : Task) : Bool :=
  if sort == "created" then createdLe a b else deadlineLe a b

/-- LEFT JOIN `categories c ON t.category_id = c.id`, projected to
`c.name AS category_name`: one row per matching category, or a single
row with `NULL` name when nothing matches. -/
def joinCategName (cats : List Category) (t : Task) : List (Option String) :=
  match cats.filter (fun c => t.category_id == some c.id) with
  | [] => [none]
  | ms => ms.map (fun c => some c.name)

/-- Template row built in the loop of `index` (lines 219-235): the task
columns, the joined category name, and the derived status. -/
def mkView (today : PDate) (t : Task) (cname : Option String) : TaskView :=
  { toTask := t
    category_name := cname
    status := (compute_task_status t.completed t.deadline today).1
    overdue := (compute_task_status t.completed t.deadline today).2 }

/-- GET branch of the `index` route (lines 189-235): strip the search
text, filter the user's tasks by search and category, sort by the
selected key, join each row with its category name and derive its
status.  Sorting precedes the join here; the SQL ORDER BY constrains
only task columns, so this fixes one of the row orders SQL allows. -/
def index (today : PDate) (uid : Nat) (rawQ : String) (cat : Option String)
    (sort : String) (tasks : List Task) (cats : List Category) : List TaskView :=
  let q := stripStr rawQ
  ((tasks.filter (matchesQuery uid q cat)).mergeSort (taskLe sort)).flatMap
    (fun t => (joinCategName cats t).map (mkView today t))

/-- AUTOINCREMENT id for a fresh `users` row. -/
def nextUserId (users : List User) : Nat :=
  (users.map User.id).foldr max 0 + 1

/-- AUTOINCREMENT id for a fresh `tasks` row. -/
def nextTaskId (tasks : List Task) : Nat :=
  (tasks.map Task.id).foldr max 0 + 1

/-- POST branch of `/register` (lines 85-102): strip the username,
reject empty username or password, surface the UNIQUE-constraint
violation on a duplicate username as a flash message (the
`sqlite3.IntegrityError` handler), otherwise insert the user with the
hashed password.  `hash` models `generate_password_hash`.  Returns the
`users` relation after the request and the flash message. -/
def register (hash : String → String) (users : List User) (username password : String) :
    List User × String :=
  let u := stripStr username
  if u = "" ∨ password = "" then (users, "Введите имя пользователя и пароль")
  else if users.any (fun x => x.username == u) then (users, "Имя пользователя уже занято")
  else (users ++ [⟨nextUserId users, u, hash password⟩], "Регистрация прошла успешно. Войдите.")

/-- Outcome of a login attempt: an established session bound to the
user id, or a flash message. -/
inductive LoginResult
  | success (user_id : Nat)
  | failure (msg : String)
deriving DecidableEq

/-- POST branch of `/login` (lines 108-120): strip the username, look
the user up by name (`SELECT * FROM users WHERE username = ?`), verify
the password against the stored hash (`check` models
`check_password_hash`), and otherwise — unknown username or failed
check alike — flash the one generic message of line 119. -/
def login (check : String → String → Bool) (users : List User) (username password : String) :
    LoginResult :=
  let u := stripStr username
  match users.find? (fun x => x.username == u) with
  | some user =>
    if check user.password_hash password then .success user.id
    else .failure "Неверные данные"
  | none => .failure "Неверные данные"

/-- POST branch of `index` with `form_type=create_task` (lines
173-187): strip title and description, map empty category/deadline
fields to `NULL` (`or None`), reject an empty title, otherwise insert
the row (completed defaults to 0, `created_at` to `now`).  The raw
`category_id` field holds the posted category id; the handler never
checks it against the acting user's categories.  Returns the `tasks`
relation after the request and the flash message. -/
def create_task (tasks : List Task) (uid : Nat) (title description : String)
    (category_id : Option Nat) (deadline : String) (now : String) :
    List Task × String :=
  let t := stripStr title
  let d := stripStr description
  if t = "" then (tasks, "Заголовок задачи обязателен")
  else
    (tasks ++ [⟨nextTaskId tasks, uid, t, d, category_id, orNone deadline, false, now⟩],
      "Задача создана")

/-- POST branch of `/edit/<task_id>` (lines 287-302): strip title and
description, map empty category/deadline to `NULL`, read the completed
checkbox (`"on"` means 1), reject an empty title, otherwise overwrite
every field of the row matching `id = ? AND user_id = ?` (a non-owned
or absent id updates nothing, and the handler still flashes success). -/
def edit (tasks : List Task) (uid : Nat) (task_id : Nat) (title description : String)
    (category_id : Option Nat) (deadline : String) (completed_raw : String) :
    List Task × String :=
  let t := stripStr title
  let d := stripStr description
  let compl := completed_raw == "on"
  if t = "" then (tasks, "Заголовок обязателен")
  else
    (tasks.map (fun x =>
      if x.id == task_id && x.user_id == uid then
        { x with title := t, description := d, category_id := category_id, deadline := orNone deadline, completed := compl }
      else x), "Задача обновлена")

/-- POST `/delete/<task_id>` (lines 275-280): `DELETE FROM tasks WHERE
id = ? AND user_id = ?`, then flash. -/
def delete (tasks : List Task) (uid : Nat) (task_id : Nat) : List Task × String :=
  (tasks.filter (fun x => !(x.id == task_id && x.user_id == uid)), "Задача удалена")

/-- Order that the deadline sort is claimed to establish between two
returned rows: a row without a deadline is never followed by one with a
deadline, and rows carrying canonically formatted valid dates appear in
date order. -/
def deadlineOrder (a b : TaskView) : Prop :=
  (a.deadline = none → b.deadline = none) ∧
    ∀ da db : PDate, validDateB da = true → validDateB db = true →
      a.deadline = some (formatDate da) → b.deadline = some (formatDate db) →
      dateLeB da db = true

/-- Listing over a one-task store whose task passes the WHERE clause:
just that task's joined rows. -/
theorem index_singleton (today : PDate) (uid : Nat) (rawQ : String) (cat : Option String)
    (sort : String) (t : Task) (cats : List Category)
    (hm : matchesQuery uid (stripStr rawQ) cat t = true) :
    index today uid rawQ cat sort [t] cats = (joinCategName cats t).map (mkView today t) := by
  unfold index
  simp only [List.filter_cons, List.filter_nil, hm, if_true, List.mergeSort_singleton,
    List.flatMap_cons, List.flatMap_nil, List.append_nil]

/-- C1: every row returned by the task-listing query carries the acting
user's id, for every search text, category filter and sort key: the
WHERE clause opens with `t.user_id = ?` and every later conjunct only
narrows the result. -/
theorem C1_tenant_isolation (today : PDate) (uid : Nat) (rawQ : String) (cat : Option String)
    (sort : String) (tasks : List Task) (cats : List Category) :
    ∀ v ∈ index today uid rawQ cat sort tasks cats, v.user_id = uid := by
  intro v hv
  unfold index at hv
  rw [List.mem_flatMap] at hv
  obtain ⟨t, ht, hv⟩ := hv
  rw [List.mem_mergeSort, List.mem_filter] at ht
  have huid : t.user_id = uid := by
    have h := ht.2
    unfold matchesQuery at h
    simp only [Bool.and_eq_true, beq_iff_eq] at h
    exact h.1.1
  rcases List.mem_map.mp hv with ⟨cn, _, rfl⟩
  exact huid

/-- Closed instance of `C1_tenant_isolation` at a concrete store. -/
theorem C1_tenant_isolation_witness :
    (mkView ⟨2024, 1, 1⟩ ⟨1, 7, "a", "", none, none, false, "ts"⟩ none).user_id = 7 :=
  C1_tenant_isolation ⟨2024, 1, 1⟩ 7 "" none "deadline"
    [⟨1, 7, "a", "", none, none, false, "ts"⟩] [] _
    (by rw [index_singleton _ _ _ _ _ _ _ (by decide)]; simp [joinCategName])

/-- C2: the status deriver agrees with the specification's reference
definition on every input (completed wins; a present, parsable deadline
strictly before today is Overdue; everything else — no deadline, today
or future, or unparsable — is In progress), totally, with the labels
rendered per `labelText`. -/
theorem C2_status_deriver_refines_spec (c : Bool) (dl : Option String) (today : PDate) :
    compute_task_status c dl today =
      (labelText (spec_status c dl today).1, (spec_status c dl today).2) := by
  cases c with
  | true => rfl
  | false =>
    cases dl with
    | none => rfl
    | some s =>
      by_cases hs : s = ""
      · subst hs; rfl
      · simp only [compute_task_status, spec_status, Bool.false_eq_true, if_false, ne_eq, hs,
          not_false_eq_true, if_true]
        cases hp : parseDate s with
        | none => rfl
        | some d =>
          by_cases hlt : dateLtB d today = true
          · simp [hlt, labelText]
          · simp [hlt, labelText]

/-- C3: an unknown username and a known username with a failing password
check land on the same flash of line 119; the login outcome does not
separate the two failures. -/
theorem C3_uniform_login_failure (check : String → String → Bool) (users : List User)
    (u1 p1 u2 p2 : String) (u : User)
    (h1 : users.find? (fun x => x.username == stripStr u1) = none)
    (h2 : users.find? (fun x => x.username == stripStr u2) = some u)
    (h3 : check u.password_hash p2 = false) :
    login check users u1 p1 = .failure "Неверные данные" ∧
      login check users u2 p2 = login check users u1 p1 := by
  simp [login, h1, h2, h3]

/-- Closed instance of `C3_uniform_login_failure`: one stored user,
one attempt with a nonexistent name, one with the right name and the
wrong password. -/
theorem C3_uniform_login_failure_witness :
    login (fun h p => h == p) [⟨1, "alice", "pw"⟩] "bob" "x" = .failure "Неверные данные" ∧
      login (fun h p => h == p) [⟨1, "alice", "pw"⟩] "alice" "wrong" =
        login (fun h p => h == p) [⟨1, "alice", "pw"⟩] "bob" "x" :=
  C3_uniform_login_failure (fun h p => h == p) [⟨1, "alice", "pw"⟩] "bob" "x" "alice" "wrong"
    ⟨1, "alice", "pw"⟩ (by decide) (by decide) (by decide)

/-- C6: registering a username that is already stored takes the
IntegrityError branch: the users relation is returned unchanged and the
flash is the uniqueness-conflict message. -/
theorem C6_duplicate_username_rejected (hash : String → String) (users : List User)
    (username password : String)
    (hu : ¬ stripStr username = "") (hp : ¬ password = "")
    (hdup : users.any (fun x => x.username == stripStr username) = true) :
    register hash users username password = (users, "Имя пользователя уже занято") := by
  unfold register
  rw [if_neg (by simp [hu, hp]), if_pos hdup]

/-- Closed instance of `C6_duplicate_username_rejected` on a one-user
store. -/
theorem C6_duplicate_username_rejected_witness :
    register (fun p => p ++ "#") [⟨1, "alice", "h"⟩] "alice" "pw" =
      ([⟨1, "alice", "h"⟩], "Имя пользователя уже занято") :=
  C6_duplicate_username_rejected (fun p => p ++ "#") [⟨1, "alice", "h"⟩] "alice" "pw"
    (by decide) (by decide) (by decide)

/-- C7: deleting a task id owned by user `a` while authenticated as a
different user `b` removes nothing: the delete statement's
`AND user_id = ?` conjunct fails on every row with that id. -/
theorem C7_cross_user_delete_noop (tasks : List Task) (a b task_id : Nat)
    (hab : a ≠ b)
    (hown : ∀ t ∈ tasks, t.id = task_id → t.user_id = a) :
    delete tasks b task_id = (tasks, "Задача удалена") := by
  unfold delete
  congr 1
  rw [List.filter_eq_self]
  intro t ht
  by_cases hid : t.id = task_id
  · have := hown t ht hid
    simp [hid, this, hab]
  · simp [hid]

/-- Closed instance of `C7_cross_user_delete_noop`: user 2 deletes user
1's task 5. -/
theorem C7_cross_user_delete_noop_witness :
    delete [⟨5, 1, "t", "", none, none, false, "n"⟩] 2 5 =
      ([⟨5, 1, "t", "", none, none, false, "n"⟩], "Задача удалена") :=
  C7_cross_user_delete_noop [⟨5, 1, "t", "", none, none, false, "n"⟩] 1 2 5
    (by decide) (by decide)

/-- C9: a blank (stripped-empty) title makes create and edit return the
store unchanged with the validation flash, and both operations keep
every stored title non-empty, so the title invariant is preserved by
every write. -/
theorem C9_title_nonempty_invariant (tasks : List Task) (uid task_id : Nat)
    (title description : String) (category_id : Option Nat)
    (deadline now completed_raw : String) :
    (stripStr title = "" →
      create_task tasks uid title description category_id deadline now =
          (tasks, "Заголовок задачи обязателен") ∧
        edit tasks uid task_id title description category_id deadline completed_raw =
          (tasks, "Заголовок обязателен")) ∧
    ((∀ t ∈ tasks, t.title ≠ "") →
      (∀ t ∈ (create_task tasks uid title description category_id deadline now).1,
          t.title ≠ "") ∧
        (∀ t ∈ (edit tasks uid task_id title description category_id deadline completed_raw).1,
          t.title ≠ "")) := by
  constructor
  · intro h
    constructor
    · simp only [create_task]
      rw [if_pos h]
    · simp only [edit]
      rw [if_pos h]
  · intro hinv
    constructor
    · intro t ht
      simp only [create_task] at ht
      by_cases h : stripStr title = ""
      · rw [if_pos h] at ht
        exact hinv t ht
      · rw [if_neg h] at ht
        rcases List.mem_append.mp ht with h1 | h1
        · exact hinv t h1
        · rw [List.mem_singleton] at h1
          subst h1
          exact h
    · intro t ht
      simp only [edit] at ht
      by_cases h : stripStr title = ""
      · rw [if_pos h] at ht
        exact hinv t ht
      · rw [if_neg h] at ht
        rcases List.mem_map.mp ht with ⟨x, hx, rfl⟩
        by_cases hc : (x.id == task_id && x.user_id == uid) = true
        · rw [if_pos hc]
          exact h
        · rw [if_neg hc]
          exact hinv x hx

/-- Closed instance of `C9_title_nonempty_invariant`: a whitespace-only
title is rejected on the empty store, and a real title keeps the
invariant. -/
theorem C9_title_nonempty_invariant_witness :
    create_task [] 1 " " "" none "" "ts" = ([], "Заголовок задачи обязателен") ∧
      ∀ t ∈ (create_task [] 1 "a" "" none "" "ts").1, t.title ≠ "" :=
  ⟨((C9_title_nonempty_invariant [] 1 0 " " "" none "" "ts" "").1 (by decide)).1,
    ((C9_title_nonempty_invariant [] 1 0 "a" "" none "" "ts" "").2 (by simp)).1⟩

/-- C8 counterexample: the create handler persists the submitted
deadline verbatim, so a stored task can hold a non-null deadline that is
not a valid calendar date — the stated invariant is not preserved by the
write operations. -/
theorem C8_invalid_deadline_persisted :
    ∃ t ∈ (create_task [] 1 "task" "" none "not-a-date" "2024-01-01 00:00:00").1,
      ∃ s, t.deadline = some s ∧ parseDate s = none := by
  refine ⟨⟨1, 1, "task", "", none, some "not-a-date", false, "2024-01-01 00:00:00"⟩,
    ?_, "not-a-date", rfl, by decide⟩
  decide

/-- C8 amended: create and edit store the submitted deadline text
verbatim (the empty field becoming NULL) without validating it; an
unparsable stored deadline then degrades to the In-progress status
rather than failing. -/
theorem C8_amended_deadline_unvalidated (tasks : List Task) (uid task_id : Nat)
    (title description : String) (category_id : Option Nat)
    (deadline now completed_raw s : String) (today : PDate)
    (h : ¬ stripStr title = "") :
    (create_task tasks uid title description category_id deadline now).1 =
        tasks ++ [⟨nextTaskId tasks, uid, stripStr title, stripStr description, category_id,
          orNone deadline, false, now⟩] ∧
      (∀ t ∈ (edit tasks uid task_id title description category_id deadline completed_raw).1,
        t ∈ tasks ∨ t.deadline = orNone deadline) ∧
      (parseDate s = none →
        compute_task_status false (some s) today = ("В процессе", false)) := by
  refine ⟨?_, ?_, ?_⟩
  · simp only [create_task]
    rw [if_neg h]
  · intro t ht
    simp only [edit] at ht
    rw [if_neg h] at ht
    rcases List.mem_map.mp ht with ⟨x, hx, rfl⟩
    by_cases hc : (x.id == task_id && x.user_id == uid) = true
    · rw [if_pos hc]
      exact Or.inr rfl
    · rw [if_neg hc]
      exact Or.inl hx
  · intro hp
    by_cases hs : s = ""
    · subst hs; rfl
    · simp [compute_task_status, hs, hp]

/-- Closed instance of `C8_amended_deadline_unvalidated`: the deadline
text "bad" is stored as submitted and derives the In-progress status. -/
theorem C8_amended_deadline_unvalidated_witness :
    (create_task [] 1 "task" "" none "bad" "ts").1 =
        [⟨1, 1, "task", "", none, some "bad", false, "ts"⟩] ∧
      compute_task_status false (some "bad") ⟨2024, 1, 1⟩ = ("В процессе", false) := by
  have h := C8_amended_deadline_unvalidated [] 1 0 "task" "" none "bad" "ts" "" "bad"
    ⟨2024, 1, 1⟩ (by decide)
  exact ⟨h.1.trans (by decide), h.2.2 (by decide)⟩

/-- C10: create and edit persist the submitted category_id verbatim,
with no check that it names one of the acting user's categories; in
particular user 2 can store a task referencing user 1's category 10,
and the listing's LEFT JOIN then shows that category's name to
user 2. -/
theorem C10_category_id_stored_verbatim (tasks : List Task) (uid task_id : Nat)
    (title description : String) (category_id : Option Nat)
    (deadline now completed_raw : String)
    (h : ¬ stripStr title = "") :
    (create_task tasks uid title description category_id deadline now).1 =
        tasks ++ [⟨nextTaskId tasks, uid, stripStr title, stripStr description, category_id,
          orNone deadline, false, now⟩] ∧
      (∀ t ∈ (edit tasks uid task_id title description category_id deadline completed_raw).1,
        t ∈ tasks ∨ t.category_id = category_id) ∧
      (∃ v ∈ index ⟨2024, 1, 1⟩ 2 "" none "deadline"
          (create_task [] 2 "task" "" (some 10) "" "ts").1 [⟨10, 1, "Аудит"⟩],
        v.category_id = some 10 ∧ v.category_name = some "Аудит" ∧
          (Category.mk 10 1 "Аудит").user_id ≠ 2) := by
  refine ⟨?_, ?_, ?_⟩
  · simp only [create_task]
    rw [if_neg h]
  · intro t ht
    simp only [edit] at ht
    rw [if_neg h] at ht
    rcases List.mem_map.mp ht with ⟨x, hx, rfl⟩
    by_cases hc : (x.id == task_id && x.user_id == uid) = true
    · rw [if_pos hc]
      exact Or.inr rfl
    · rw [if_neg hc]
      exact Or.inl hx
  · have hc : (create_task [] 2 "task" "" (some 10) "" "ts").1 =
        [⟨1, 2, "task", "", some 10, none, false, "ts"⟩] := by decide
    rw [hc, index_singleton _ _ _ _ _ _ _ (by decide)]
    exact ⟨mkView ⟨2024, 1, 1⟩ ⟨1, 2, "task", "", some 10, none, false, "ts"⟩ (some "Аудит"),
      by decide, rfl, rfl, by decide⟩

/-- Closed instance of `C10_category_id_stored_verbatim`: user 3 stores
category id 10 verbatim, and user 2's listing shows user 1's category
name. -/
theorem C10_category_id_stored_verbatim_witness :
    (create_task [] 3 "task" "" (some 10) "" "ts").1 =
        [⟨1, 3, "task", "", some 10, none, false, "ts"⟩] ∧
      (∃ v ∈ index ⟨2024, 1, 1⟩ 2 "" none "deadline"
          (create_task [] 2 "task" "" (some 10) "" "ts").1 [⟨10, 1, "Аудит"⟩],
        v.category_id = some 10 ∧ v.category_name = some "Аудит" ∧
          (Category.mk 10 1 "Аудит").user_id ≠ 2) := by
  have h := C10_category_id_stored_verbatim [] 3 0 "task" "" (some 10) "" "ts" "" (by decide)
  exact ⟨h.1.trans (by decide), h.2.2⟩

/-- Matching a wildcard-free pattern followed by a trailing `%` is the
case-folded prefix test. -/
theorem likeMatch_plain_append (p : List Char) :
    ∀ s : List Char, (∀ c ∈ p, ¬c = '%' ∧ ¬c = '_') →
      likeMatch (p ++ ['%']) s = isPrefixB (p.map lowerAscii) (s.map lowerAscii) := by
  induction p with
  | nil =>
    intro s _
    show likeMatch ['%'] s = isPrefixB [] (s.map lowerAscii)
    simp only [likeMatch, if_pos rfl, isPrefixB]
    exact List.any_eq_true.mpr ⟨[], (List.mem_tails _ _).mpr List.nil_suffix, rfl⟩
  | cons a p ih =>
    intro s hw
    have ha := hw a (List.mem_cons_self a p)
    cases s with
    | nil =>
      simp only [List.cons_append, likeMatch, if_neg ha.1, List.map_cons, isPrefixB]
    | cons c s' =>
      simp only [List.cons_append, likeMatch, if_neg ha.1, if_neg ha.2, List.map_cons, isPrefixB,
        List.append_eq]
      rw [ih s' (fun c hc => hw c (List.mem_cons_of_mem a hc))]

/-- The contiguous-sublist test tries the prefix test at every tail. -/
theorem isInfixB_eq_any_tails (q : List Char) : ∀ s : List Char,
    isInfixB q s = s.tails.any (fun t => isPrefixB q t) := by
  intro s
  induction s with
  | nil => simp [isInfixB, List.tails]
  | cons b s' ih => simp [isInfixB, List.tails_cons, ih]

/-- Taking tails commutes with mapping a character function. -/
theorem tails_map (f : Char → Char) : ∀ s : List Char,
    (s.map f).tails = s.tails.map (List.map f) := by
  intro s
  induction s with
  | nil => rfl
  | cons b s' ih => simp [List.map_cons, List.tails_cons, ih]

/-- The full `'%q%'` pattern of the search filter, for wildcard-free
`q`, is exactly ASCII-case-insensitive substring containment. -/
theorem likeMatch_pattern_contains (q s : List Char)
    (hw : ∀ c ∈ q, ¬c = '%' ∧ ¬c = '_') :
    likeMatch ('%' :: (q ++ ['%'])) s = isInfixB (q.map lowerAscii) (s.map lowerAscii) := by
  have h1 : likeMatch ('%' :: (q ++ ['%'])) s =
      s.tails.any (fun t => likeMatch (q ++ ['%']) t) := by
    simp [likeMatch]
  rw [h1]
  have h2 : (fun t => likeMatch (q ++ ['%']) t) =
      (fun t : List Char => isPrefixB (q.map lowerAscii) (t.map lowerAscii)) :=
    funext fun t => likeMatch_plain_append q t hw
  rw [h2, isInfixB_eq_any_tails, tails_map, List.any_map]
  rfl

/-- C5 counterexample: with search text `"_"` — a LIKE wildcard — the
query returns a task whose title `"x"` does not contain `"_"` as a
substring, so the listing does not keep exactly the tasks whose title
contains the search text. -/
theorem C5_wildcard_not_substring :
    (∃ v ∈ index ⟨2024, 1, 1⟩ 1 "_" none "deadline"
        [⟨1, 1, "x", "", none, none, false, "ts"⟩] [], v.title = "x") ∧
      containsSubstr "x" "_" = false := by
  constructor
  · refine ⟨mkView ⟨2024, 1, 1⟩ ⟨1, 1, "x", "", none, none, false, "ts"⟩ none, ?_, rfl⟩
    rw [index_singleton _ _ _ _ _ _ _ (by decide)]
    simp [joinCategName]
  · decide

/-- C5 amended: for a search text without LIKE wildcards, the listing
keeps exactly the acting user's tasks whose title contains the text as
an ASCII-case-insensitive substring (the description is never
consulted), and the empty text applies no filter. -/
theorem C5_amended_title_search (today : PDate) (uid : Nat) (q : String) (sort : String)
    (tasks : List Task) (cats : List Category)
    (hq : stripStr q = q) (hw : noWild q = true) :
    ∀ t ∈ tasks,
      ((∃ v ∈ index today uid q none sort tasks cats, v.toTask = t) ↔
        (t.user_id = uid ∧ (q = "" ∨ containsCI t.title q = true))) := by
  have hw' : ∀ c ∈ q.toList, ¬c = '%' ∧ ¬c = '_' := by
    intro c hc
    have h := List.all_eq_true.mp hw c hc
    simp only [Bool.and_eq_true, Bool.not_eq_true'] at h
    exact ⟨by simpa using h.1, by simpa using h.2⟩
  have hmq : ∀ t : Task, matchesQuery uid q none t =
      ((t.user_id == uid) && (q == "" || containsCI t.title q)) := by
    intro t
    unfold matchesQuery
    rw [likeMatch_pattern_contains q.toList t.title.toList hw']
    simp [containsCI]
  intro t ht
  constructor
  · rintro ⟨v, hv, hvt⟩
    unfold index at hv
    rw [hq, List.mem_flatMap] at hv
    obtain ⟨t', ht', hvm⟩ := hv
    rcases List.mem_map.mp hvm with ⟨cn, _, hveq⟩
    subst hveq
    have htt : t' = t := hvt
    subst htt
    rw [List.mem_mergeSort, List.mem_filter] at ht'
    have h := ht'.2
    rw [hmq] at h
    simp only [Bool.and_eq_true, Bool.or_eq_true, beq_iff_eq] at h
    exact ⟨h.1, h.2⟩
  · rintro ⟨hu, hsearch⟩
    have hm : matchesQuery uid q none t = true := by
      rw [hmq]
      rcases hsearch with h | h <;> simp [hu, h]
    have hj : ∃ cn, cn ∈ joinCategName cats t := by
      unfold joinCategName
      cases hfc : cats.filter (fun c => t.category_id == some c.id) with
      | nil => exact ⟨none, List.mem_singleton.mpr rfl⟩
      | cons c cs => exact ⟨some c.name, List.mem_map.mpr ⟨c, List.mem_cons_self c cs, rfl⟩⟩
    obtain ⟨cn, hcn⟩ := hj
    refine ⟨mkView today t cn, ?_, rfl⟩
    unfold index
    rw [hq, List.mem_flatMap]
    exact ⟨t, List.mem_mergeSort.mpr (List.mem_filter.mpr ⟨ht, hm⟩),
      List.mem_map.mpr ⟨cn, hcn, rfl⟩⟩

/-- Closed instance of `C5_amended_title_search`: the search "ent" on a
store holding one task titled "Rent". -/
theorem C5_amended_title_search_witness :
    (∃ v ∈ index ⟨2024, 1, 1⟩ 1 "ent" none "deadline"
        [⟨1, 1, "Rent", "", none, none, false, "ts"⟩] [],
      v.toTask = ⟨1, 1, "Rent", "", none, none, false, "ts"⟩) ↔
      ((1 : Nat) = 1 ∧ ("ent" = "" ∨ containsCI "Rent" "ent" = true)) :=
  C5_amended_title_search ⟨2024, 1, 1⟩ 1 "ent" "deadline"
    [⟨1, 1, "Rent", "", none, none, false, "ts"⟩] [] (by decide) (by decide)
    ⟨1, 1, "Rent", "", none, none, false, "ts"⟩ (List.mem_singleton.mpr rfl)

/-- The BINARY-collation comparison is reflexive. -/
theorem charListLe_refl : ∀ l : List Char, charListLe l l = true
  | [] => rfl
  | a :: as => by simp [charListLe, charListLe_refl as]

/-- The BINARY-collation comparison is total. -/
theorem charListLe_total : ∀ xs ys : List Char, (charListLe xs ys || charListLe ys xs) = true
  | [], _ => by simp [charListLe]
  | _ :: _, [] => by simp [charListLe]
  | a :: as, b :: bs => by
    rcases lt_trichotomy a b with h | h | h
    · simp [charListLe, h]
    · subst h
      simpa [charListLe, lt_irrefl, Bool.or_assoc, Bool.or_left_comm] using
        charListLe_total as bs
    · simp [charListLe, h]

/-- The BINARY-collation comparison is transitive. -/
theorem charListLe_trans : ∀ xs ys zs : List Char,
    charListLe xs ys = true → charListLe ys zs = true → charListLe xs zs = true
  | [], _, _, _, _ => rfl
  | _ :: _, [], _, h1, _ => by simp [charListLe] at h1
  | _ :: _, _ :: _, [], _, h2 => by simp [charListLe] at h2
  | a :: as, b :: bs, c :: cs, h1, h2 => by
    simp only [charListLe, Bool.or_eq_true, Bool.and_eq_true, decide_eq_true_eq,
      beq_iff_eq] at h1 h2 ⊢
    rcases h1 with h1 | ⟨hab, h1⟩
    · rcases h2 with h2 | ⟨hbc, h2⟩
      · exact Or.inl (lt_trans h1 h2)
      · exact Or.inl (hbc ▸ h1)
    · subst hab
      rcases h2 with h2 | ⟨hbc, h2⟩
      · exact Or.inl h2
      · exact Or.inr ⟨hbc, charListLe_trans as bs cs h1 h2⟩

/-- Width of the zero-padded rendering. -/
theorem padDigits_length : ∀ k n, (padDigits k n).length = k
  | 0, _ => rfl
  | k + 1, n => by simp [padDigits, padDigits_length k]

/-- Digit characters compare like the digits they render. -/
theorem digitChar_lt : ∀ a < 10, ∀ b < 10,
    decide (digitChar a < digitChar b) = decide (a < b) := by decide

/-- Digit characters are equal exactly when the digits are. -/
theorem digitChar_beq : ∀ a < 10, ∀ b < 10,
    (digitChar a == digitChar b) = (a == b) := by decide

/-- Byte order of equal-width zero-padded decimals is numeric order. -/
theorem padDigits_le : ∀ (k n m : Nat), n < 10 ^ k → m < 10 ^ k →
    charListLe (padDigits k n) (padDigits k m) = decide (n ≤ m)
  | 0, n, m, hn, hm => by
    have hn0 : n = 0 := by simpa using hn
    have hm0 : m = 0 := by simpa using hm
    subst hn0; subst hm0; decide
  | k + 1, n, m, hn, hm => by
    have hpos : 0 < 10 ^ k := pow_pos (by norm_num) k
    have hns : n < 10 ^ k * 10 := by rw [← pow_succ]; exact hn
    have hms : m < 10 ^ k * 10 := by rw [← pow_succ]; exact hm
    have hn10 : n / 10 ^ k < 10 := by
      rw [Nat.div_lt_iff_lt_mul hpos]; omega
    have hm10 : m / 10 ^ k < 10 := by
      rw [Nat.div_lt_iff_lt_mul hpos]; omega
    have ih := padDigits_le k (n % 10 ^ k) (m % 10 ^ k) (Nat.mod_lt _ hpos) (Nat.mod_lt _ hpos)
    simp only [padDigits, charListLe, ih, digitChar_lt _ hn10 _ hm10,
      digitChar_beq _ hn10 _ hm10]
    have hdn := Nat.div_add_mod n (10 ^ k)
    have hdm := Nat.div_add_mod m (10 ^ k)
    by_cases h1 : n / 10 ^ k < m / 10 ^ k
    · have hlt : n < m := Nat.lt_of_div_lt_div h1
      simp [h1, Nat.le_of_lt hlt]
    · by_cases h2 : n / 10 ^ k = m / 10 ^ k
      · rw [h2] at hdn
        have hX : ∀ X, 10 ^ k * (m / 10 ^ k) = X → (decide (n / 10 ^ k < m / 10 ^ k) ||
            ((n / 10 ^ k == m / 10 ^ k) && decide (n % 10 ^ k ≤ m % 10 ^ k))) =
            decide (n ≤ m) := by
          intro X hXe
          rw [hXe] at hdn hdm
          simp only [h2, lt_irrefl, decide_False, beq_self_eq_true, Bool.true_and,
            Bool.false_or]
          rw [decide_eq_decide]
          omega
        exact hX _ rfl
      · have h3 : m / 10 ^ k < n / 10 ^ k := by omega
        have hgt : m < n := Nat.lt_of_div_lt_div h3
        have hnm : ¬ n ≤ m := by omega
        simp [h1, h2, hnm]

/-- Comparing equal-length segments first: the BINARY comparison of two
concatenations with equal-length heads. -/
theorem charListLe_ext : ∀ (xs ys zs ws : List Char), xs.length = ys.length →
    charListLe (xs ++ zs) (ys ++ ws) =
      (if xs = ys then charListLe zs ws else charListLe xs ys)
  | [], [], zs, ws, _ => by simp
  | [], _ :: _, _, _, h => by simp at h
  | _ :: _, [], _, _, h => by simp at h
  | a :: xs, b :: ys, zs, ws, h => by
    have h' : xs.length = ys.length := by simpa using h
    by_cases hab : a = b
    · subst hab
      simp only [List.cons_append, charListLe, lt_self_iff_false, decide_False,
        beq_self_eq_true, Bool.true_and, Bool.false_or, List.append_eq]
      rw [charListLe_ext xs ys zs ws h']
      by_cases hxy : xs = ys
      · simp [hxy]
      · simp only [hxy, if_false, List.cons.injEq, true_and, charListLe,
          lt_self_iff_false, decide_False, beq_self_eq_true, Bool.true_and, Bool.false_or]
    · have hne : ¬ (a :: xs = b :: ys) := by simp [hab]
      have hbeq : (a == b) = false := beq_eq_false_iff_ne.mpr hab
      simp only [List.cons_append, charListLe, if_neg hne, hbeq, Bool.false_and,
        Bool.or_false]

/-- The dash separator falls away when comparing two rendered dates
fieldwise. -/
theorem charListLe_dash (r1 r2 : List Char) :
    charListLe ('-' :: r1) ('-' :: r2) = charListLe r1 r2 := by
  simp only [charListLe]
  rw [show decide (('-' : Char) < '-') = false from rfl,
    show (('-' : Char) == '-') = true from rfl]
  simp

/-- Every month length is at most 31. -/
theorem daysInMonth_le (y m : Nat) : daysInMonth y m ≤ 31 := by
  unfold daysInMonth
  split_ifs <;> omega

/-- Arithmetic reading of the date order. -/
theorem dateLeB_iff (a b : PDate) : dateLeB a b = true ↔
    (a.year < b.year ∨ (a.year = b.year ∧
      (a.month < b.month ∨ (a.month = b.month ∧ a.day ≤ b.day)))) := by
  obtain ⟨y1, m1, d1⟩ := a
  obtain ⟨y2, m2, d2⟩ := b
  simp only [dateLeB, dateLtB, Bool.or_eq_true, Bool.and_eq_true, decide_eq_true_eq,
    beq_iff_eq, PDate.mk.injEq]
  omega

/-- Byte order of two canonically rendered valid dates is the date
order. -/
theorem formatDate_le (da db : PDate) (ha : validDateB da = true) (hb : validDateB db = true) :
    charListLe (formatDate da).data (formatDate db).data = dateLeB da db := by
  have hda31 := daysInMonth_le da.year da.month
  have hdb31 := daysInMonth_le db.year db.month
  obtain ⟨y1, m1, d1⟩ := da
  obtain ⟨y2, m2, d2⟩ := db
  simp only [validDateB, Bool.and_eq_true, decide_eq_true_eq] at ha hb
  obtain ⟨⟨⟨⟨⟨hy1a, hy1b⟩, hm1a⟩, hm1b⟩, hd1a⟩, hd1b⟩ := ha
  obtain ⟨⟨⟨⟨⟨hy2a, hy2b⟩, hm2a⟩, hm2b⟩, hd2a⟩, hd2b⟩ := hb
  simp only at hda31 hdb31
  show charListLe (padDigits 4 y1 ++ '-' :: (padDigits 2 m1 ++ '-' :: padDigits 2 d1))
      (padDigits 4 y2 ++ '-' :: (padDigits 2 m2 ++ '-' :: padDigits 2 d2)) = _
  rw [charListLe_ext _ _ _ _ (by rw [padDigits_length, padDigits_length])]
  by_cases hy : padDigits 4 y1 = padDigits 4 y2
  · have hyy : y1 = y2 := by
      have e1 := padDigits_le 4 y1 y2 (by omega) (by omega)
      have e2 := padDigits_le 4 y2 y1 (by omega) (by omega)
      rw [hy, charListLe_refl] at e1
      rw [← hy, charListLe_refl] at e2
      have l1 := of_decide_eq_true e1.symm
      have l2 := of_decide_eq_true e2.symm
      omega
    rw [if_pos hy, charListLe_dash,
      charListLe_ext _ _ _ _ (by rw [padDigits_length, padDigits_length])]
    by_cases hm : padDigits 2 m1 = padDigits 2 m2
    · have hmm : m1 = m2 := by
        have e1 := padDigits_le 2 m1 m2 (by omega) (by omega)
        have e2 := padDigits_le 2 m2 m1 (by omega) (by omega)
        rw [hm, charListLe_refl] at e1
        rw [← hm, charListLe_refl] at e2
        have l1 := of_decide_eq_true e1.symm
        have l2 := of_decide_eq_true e2.symm
        omega
      rw [if_pos hm, charListLe_dash, padDigits_le 2 d1 d2 (by omega) (by omega),
        Bool.eq_iff_iff]
      simp only [decide_eq_true_eq, dateLeB_iff]
      omega
    · have hmm : m1 ≠ m2 := fun hcl => hm (by rw [hcl])
      rw [if_neg hm, padDigits_le 2 m1 m2 (by omega) (by omega), Bool.eq_iff_iff]
      simp only [decide_eq_true_eq, dateLeB_iff]
      omega
  · have hyy : y1 ≠ y2 := fun hcl => hy (by rw [hcl])
    rw [if_neg hy, padDigits_le 4 y1 y2 (by omega) (by omega), Bool.eq_iff_iff]
    simp only [decide_eq_true_eq, dateLeB_iff]
    omega

/-- Canonical rendering is injective on valid dates. -/
theorem formatDate_inj (da db : PDate) (ha : validDateB da = true) (hb : validDateB db = true)
    (h : formatDate da = formatDate db) : da = db := by
  have e1 := formatDate_le da db ha hb
  have e2 := formatDate_le db da hb ha
  rw [h, charListLe_refl] at e1
  rw [h, charListLe_refl] at e2
  have l1 := (dateLeB_iff da db).mp e1.symm
  have l2 := (dateLeB_iff db da).mp e2.symm
  obtain ⟨y1, m1, d1⟩ := da
  obtain ⟨y2, m2, d2⟩ := db
  simp only at l1 l2
  simp only [PDate.mk.injEq]
  omega

/-- The deadline comparator of the SQL ORDER BY is transitive. -/
theorem deadlineLe_trans : ∀ a b c : Task, deadlineLe a b = true → deadlineLe b c = true →
    deadlineLe a c = true := by
  intro a b c h1 h2
  simp only [deadlineLe, Bool.or_eq_true, Bool.and_eq_true, decide_eq_true_eq,
    beq_iff_eq] at h1 h2 ⊢
  rcases h1 with h1 | ⟨e1, l1⟩
  · rcases h2 with h2 | ⟨e2, l2⟩
    · exact Or.inl (lt_trans h1 h2)
    · exact Or.inl (e2 ▸ h1)
  · rcases h2 with h2 | ⟨e2, l2⟩
    · exact Or.inl (e1 ▸ h2)
    · exact Or.inr ⟨e1.trans e2, charListLe_trans _ _ _ l1 l2⟩

/-- The deadline comparator of the SQL ORDER BY is total. -/
theorem deadlineLe_total : ∀ a b : Task, (deadlineLe a b || deadlineLe b a) = true := by
  intro a b
  simp only [deadlineLe, Bool.or_eq_true, Bool.and_eq_true, decide_eq_true_eq, beq_iff_eq]
  rcases lt_trichotomy (nullKey a) (nullKey b) with h | h | h
  · exact Or.inl (Or.inl h)
  · have htot := charListLe_total (dlChars a) (dlChars b)
    rw [Bool.or_eq_true] at htot
    rcases htot with h1 | h1
    · exact Or.inl (Or.inr ⟨h, h1⟩)
    · exact Or.inr (Or.inr ⟨h.symm, h1⟩)
  · exact Or.inr (Or.inl h)

/-- Pairwise order of a flatMap, from order inside each block and order
across blocks. -/
theorem pairwise_flatMap {α β : Type} {l : List α} {f : α → List β} {S : β → β → Prop}
    (hin : ∀ a ∈ l, (f a).Pairwise S)
    (hcross : l.Pairwise (fun a b => ∀ x ∈ f a, ∀ y ∈ f b, S x y)) :
    (l.flatMap f).Pairwise S := by
  induction l with
  | nil => simp
  | cons a l ih =>
    rw [List.flatMap_cons, List.pairwise_append]
    rw [List.pairwise_cons] at hcross
    refine ⟨hin a (List.mem_cons_self a l),
      ih (fun b hb => hin b (List.mem_cons_of_mem a hb)) hcross.2, ?_⟩
    intro x hx y hy
    rw [List.mem_flatMap] at hy
    obtain ⟨b, hb, hyb⟩ := hy
    exact hcross.1 b hb x hx y hyb

/-- A relation holds pairwise when it holds everywhere. -/
theorem pairwise_of_forall {β : Type} {S : β → β → Prop} (h : ∀ x y, S x y) :
    ∀ l : List β, l.Pairwise S
  | [] => .nil
  | b :: l => .cons (fun y _ => h b y) (pairwise_of_forall h l)

/-- Two views sharing a deadline satisfy the claimed order. -/
theorem deadlineOrder_of_deadline_eq {x y : TaskView} (h : x.deadline = y.deadline) :
    deadlineOrder x y := by
  constructor
  · intro hn
    rw [← h]
    exact hn
  · intro da db hva hvb hxa hyb
    have hfd : formatDate da = formatDate db := by
      have h2 := hxa.symm.trans (h.trans hyb)
      exact Option.some.inj h2
    have hdd := formatDate_inj da db hva hvb hfd
    subst hdd
    simp [dateLeB]

/-- The SQL comparator implies the claimed order between the joined
views of the two tasks. -/
theorem deadlineOrder_of_deadlineLe {today : PDate} {a b : Task} {ca cb : Option String}
    (h : deadlineLe a b = true) :
    deadlineOrder (mkView today a ca) (mkView today b cb) := by
  constructor
  · intro hn
    replace hn : a.deadline = none := hn
    show b.deadline = none
    simp only [deadlineLe, Bool.or_eq_true, Bool.and_eq_true, decide_eq_true_eq,
      beq_iff_eq] at h
    have h1 : nullKey a = 1 := by simp [nullKey, hn]
    rcases h with h | ⟨e, _⟩
    · exfalso
      rw [h1] at h
      cases hb : b.deadline with
      | none =>
        rw [show nullKey b = 1 from by simp [nullKey, hb]] at h
        exact lt_irrefl 1 h
      | some s =>
        rw [show nullKey b = 0 from by simp [nullKey, hb]] at h
        omega
    · cases hb : b.deadline with
      | none => rfl
      | some s =>
        exfalso
        rw [h1, show nullKey b = 0 from by simp [nullKey, hb]] at e
        omega
  · intro da db hva hvb hxa hyb
    replace hxa : a.deadline = some (formatDate da) := hxa
    replace hyb : b.deadline = some (formatDate db) := hyb
    simp only [deadlineLe, Bool.or_eq_true, Bool.and_eq_true, decide_eq_true_eq,
      beq_iff_eq] at h
    have hka : nullKey a = 0 := by simp [nullKey, hxa]
    have hkb : nullKey b = 0 := by simp [nullKey, hyb]
    rcases h with h | ⟨_, hle⟩
    · rw [hka, hkb] at h
      exact absurd h (lt_irrefl 0)
    · have hda : dlChars a = (formatDate da).data := by
        simp [dlChars, hxa, String.toList]
      have hdb : dlChars b = (formatDate db).data := by
        simp [dlChars, hyb, String.toList]
      rw [hda, hdb, formatDate_le da db hva hvb] at hle
      exact hle

/-- C4: under the default "deadline" sort key every pair of returned
rows is ordered: a row without a deadline never precedes a row with
one, and rows holding canonically rendered valid dates appear in
ascending date order (the TEXT column is compared bytewise, which on
zero-padded `YYYY-MM-DD` strings is date order). -/
theorem C4_deadline_sort_order (today : PDate) (uid : Nat) (rawQ : String)
    (cat : Option String) (tasks : List Task) (cats : List Category) :
    (index today uid rawQ cat "deadline" tasks cats).Pairwise deadlineOrder := by
  unfold index
  have hle : taskLe "deadline" = deadlineLe := by
    funext a b
    unfold taskLe
    rw [if_neg (by decide)]
  rw [hle]
  apply pairwise_flatMap
  · intro t _
    rw [List.pairwise_map]
    apply pairwise_of_forall
    intro x y
    exact deadlineOrder_of_deadline_eq rfl
  · have hsort := List.sorted_mergeSort deadlineLe_trans deadlineLe_total
      (tasks.filter (matchesQuery uid (stripStr rawQ) cat))
    refine List.Pairwise.imp ?_ hsort
    intro a b hab x hx y hy
    rcases List.mem_map.mp hx with ⟨ca, _, rfl⟩
    rcases List.mem_map.mp hy with ⟨cb, _, rfl⟩
    exact deadlineOrder_of_deadlineLe hab

end App
